import Mathlib

/-!
Verification of the planar angular-ordering snippets of the repository:
`src/sort_by_argument.rs` (half-plane + cross-product comparator for
argument sorting of `i64` points) and `src/angle_between.rs` (unsigned
angle between two integer vectors).

The Rust code works on `(i64, i64)` points and widens every product to
`i128`.  The embedding makes the machine ranges explicit through the
predicates `isI64` and `i128Fits`.  `cross` and `dot` are modelled as
exact integers: for `i64` inputs `cross` never leaves the `i128` range,
and `dot` leaves it only at one corner input; both facts are settled
under C3.  `norm2`, whose `i128` sum does overflow at the valid `i64`
input `x = y = -2^63`, is modelled with the two's-complement reduction
`wrap128`, so it agrees with the `i128` computation of the release-built
snippet on every input.  The panic reachable under
`OriginPolicy.Forbid` is modelled by returning `none`.
-/

namespace ArgSort

/-- The signed-64-bit range: `-2^63 ≤ n < 2^63`. -/
def isI64 (n : Int) : Prop := -(2 ^ 63) ≤ n ∧ n < 2 ^ 63

instance (n : Int) : Decidable (isI64 n) := by unfold isI64; infer_instance

/-- Both coordinates of a point are in the `i64` range. -/
def isI64Pair (p : Int × Int) : Prop := isI64 p.1 ∧ isI64 p.2

instance (p : Int × Int) : Decidable (isI64Pair p) := by unfold isI64Pair; infer_instance

/-- The signed-128-bit range: `-2^127 ≤ n < 2^127`. -/
def i128Fits (n : Int) : Prop := -(2 ^ 127) ≤ n ∧ n < 2 ^ 127

instance (n : Int) : Decidable (i128Fits n) := by unfold i128Fits; infer_instance

/-- `cross` from `sort_by_argument.rs` / `angle_between.rs` (both files
define the same function): `(ax as i128) * (by as i128) - (ay as i128) * (bx as i128)`.
The `i128` arithmetic is modelled exactly over `Int`. -/
def cross (ax ay bx b_y : Int) : Int := ax * b_y - ay * bx

/-- `dot` from `angle_between.rs`:
`(ax as i128) * (bx as i128) + (ay as i128) * (by as i128)`. -/
def dot (ax ay bx b_y : Int) : Int := ax * bx + ay * b_y

/-- Reduction of an integer into the signed 128-bit range
`[-2^127, 2^127)`: the two's-complement wrap performed by `i128`
arithmetic on overflow. -/
def wrap128 (n : Int) : Int := (n + 2 ^ 127) % 2 ^ 128 - 2 ^ 127

/-- `norm2` from `sort_by_argument.rs`:
`(x as i128) * (x as i128) + (y as i128) * (y as i128)`.  For `i64`
inputs each squared component fits in `i128`, but the sum overflows at
the single corner `x = y = -2^63`, where the exact value `2^127` wraps
to `-2^127` in the release-profile build the snippet runs as; wrapping
the exact sum once with `wrap128` is the same function as wrapping
every intermediate `i128` operation, so this models the machine
computation exactly. -/
def norm2 (x y : Int) : Int := wrap128 (x * x + y * y)

/-- `upper_half` from `sort_by_argument.rs`: `y > 0 || (y == 0 && x >= 0)`. -/
def upper_half (x y : Int) : Bool := decide (0 < y ∨ (y = 0 ∧ 0 ≤ x))

/-- `OriginPolicy` from `sort_by_argument.rs`. -/
inductive OriginPolicy where
  | First
  | Last
  | Forbid
deriving DecidableEq, Repr

/-- `TieBreak` from `sort_by_argument.rs`. -/
inductive TieBreak where
  | Norm2Asc
  | Lex
deriving DecidableEq, Repr

/-- `ArgSortOptions` from `sort_by_argument.rs`. -/
structure ArgSortOptions where
  origin : OriginPolicy
  tie : TieBreak
deriving DecidableEq, Repr

/-- `impl Default for ArgSortOptions`: `(Last, Norm2Asc)`. -/
def ArgSortOptions.default : ArgSortOptions :=
  { origin := OriginPolicy.Last, tie := TieBreak.Norm2Asc }

/-- Rust `bool::cmp` (`false < true`). -/
def cmpBool (x y : Bool) : Ordering :=
  if x = y then Ordering.eq else if x then Ordering.gt else Ordering.lt

/-- Rust `i128::cmp`. -/
def cmpInt (x y : Int) : Ordering :=
  if x < y then Ordering.lt else if y < x then Ordering.gt else Ordering.eq

/-- Rust `(i64, i64)::cmp`: lexicographic tuple comparison. -/
def cmpPair (a b : Int × Int) : Ordering :=
  match cmpInt a.1 b.1 with
  | Ordering.eq => cmpInt a.2 b.2
  | o => o

/-- `cmp_by_argument_i64` from `sort_by_argument.rs`.  A result of `none`
models the `panic` taken under `OriginPolicy.Forbid` when either point is
the origin; every non-panicking path returns `some` of the Rust
`Ordering`. -/
def cmp_by_argument_i64 (a b : Int × Int) (opt : ArgSortOptions) : Option Ordering :=
  let a0 := decide (a.1 = 0 ∧ a.2 = 0)
  let b0 := decide (b.1 = 0 ∧ b.2 = 0)
  if a0 || b0 then
    match opt.origin with
    | OriginPolicy.First => some (cmpBool b0 a0)
    | OriginPolicy.Last => some (cmpBool a0 b0)
    | OriginPolicy.Forbid => none
  else
    let ha := upper_half a.1 a.2
    let hb := upper_half b.1 b.2
    if ha != hb then
      some (cmpBool hb ha)
    else
      let cr := cross a.1 a.2 b.1 b.2
      if cr ≠ 0 then
        some (if 0 < cr then Ordering.lt else Ordering.gt)
      else
        match opt.tie with
        | TieBreak.Norm2Asc => some (cmpInt (norm2 a.1 a.2) (norm2 b.1 b.2))
        | TieBreak.Lex => some (cmpPair a b)

/-- `cmp_by_argument_default_i64` from `sort_by_argument.rs`. -/
def cmp_by_argument_default_i64 (a b : Int × Int) : Option Ordering :=
  cmp_by_argument_i64 a b ArgSortOptions.default

/-- The tie-break computation inlined in the last `match` of
`cmp_by_argument_i64`, named so that theorems can refer to it. -/
def tie_break_cmp (a b : Int × Int) (t : TieBreak) : Ordering :=
  match t with
  | TieBreak.Norm2Asc => cmpInt (norm2 a.1 a.2) (norm2 b.1 b.2)
  | TieBreak.Lex => cmpPair a b

/-- `angle_between` from `angle_between.rs`.  The Rust function ends with
`(cr.abs() as f64).atan2(dt as f64)` where `cr = cross(..)` and
`dt = dot(..)`; the composite of the two `i128 -> f64` conversions and
`f64::atan2` is a deterministic function of the two integers `|cr|` and
`dt`, modelled here by the abstract parameter `f`.  The zero-vector guard
and the integer arithmetic feeding `f` are translated exactly. -/
def angle_between {α : Type} [Zero α] (f : Int → Int → α) (a b : Int × Int) : α :=
  if (a.1 = 0 ∧ a.2 = 0) ∨ (b.1 = 0 ∧ b.2 = 0) then 0
  else f |cross a.1 a.2 b.1 b.2| (dot a.1 a.2 b.1 b.2)

/-- A point is admissible for a policy: under `Forbid` it must not be the
origin (otherwise the code panics); under `First`/`Last` every point is
admissible. -/
def allowed (opt : ArgSortOptions) (p : Int × Int) : Prop :=
  opt.origin = OriginPolicy.Forbid → p ≠ (0, 0)

instance (opt : ArgSortOptions) (p : Int × Int) : Decidable (allowed opt p) := by
  unfold allowed; infer_instance

/-! ### Basic facts about the comparison helpers -/

lemma cmpBool_swap (x y : Bool) : cmpBool x y = (cmpBool y x).swap := by
  cases x <;> cases y <;> rfl

lemma cmpInt_eq_lt {x y : Int} : cmpInt x y = Ordering.lt ↔ x < y := by
  unfold cmpInt
  split_ifs with h1 h2 <;> simp_all <;> omega

lemma cmpInt_eq_gt {x y : Int} : cmpInt x y = Ordering.gt ↔ y < x := by
  unfold cmpInt
  split_ifs with h1 h2 <;> simp_all <;> omega

lemma cmpInt_eq_eq {x y : Int} : cmpInt x y = Ordering.eq ↔ x = y := by
  unfold cmpInt
  split_ifs with h1 h2 <;> simp_all <;> omega

lemma cmpInt_swap (x y : Int) : cmpInt x y = (cmpInt y x).swap := by
  unfold cmpInt
  split_ifs with h1 h2 h3 h4 <;> first | rfl | omega

lemma cmpInt_self (x : Int) : cmpInt x x = Ordering.eq := by
  simp [cmpInt]

lemma cmpPair_swap (a b : Int × Int) : cmpPair a b = (cmpPair b a).swap := by
  unfold cmpPair
  rw [cmpInt_swap a.1 b.1, cmpInt_swap a.2 b.2]
  cases cmpInt b.1 a.1 <;> rfl

lemma cmpPair_self (a : Int × Int) : cmpPair a a = Ordering.eq := by
  unfold cmpPair
  rw [cmpInt_self, cmpInt_self]

lemma cmpPair_eq_lt {a b : Int × Int} :
    cmpPair a b = Ordering.lt ↔ a.1 < b.1 ∨ (a.1 = b.1 ∧ a.2 < b.2) := by
  unfold cmpPair
  rcases h : cmpInt a.1 b.1 with _ | _ | _ <;>
    simp_all [cmpInt_eq_lt, cmpInt_eq_eq, cmpInt_eq_gt] <;> omega

lemma cmpPair_eq_eq {a b : Int × Int} : cmpPair a b = Ordering.eq ↔ a = b := by
  unfold cmpPair
  rcases h : cmpInt a.1 b.1 with _ | _ | _ <;>
    simp_all [cmpInt_eq_lt, cmpInt_eq_eq, cmpInt_eq_gt, Prod.ext_iff] <;> omega

/-! ### Elementary algebra of `cross`, `dot`, `norm2` -/

lemma cross_anticomm (ax ay bx b_y : Int) :
    cross bx b_y ax ay = -cross ax ay bx b_y := by
  unfold cross; ring

lemma cross_self (ax ay : Int) : cross ax ay ax ay = 0 := by
  unfold cross; ring

lemma dot_comm (ax ay bx b_y : Int) :
    dot bx b_y ax ay = dot ax ay bx b_y := by
  unfold dot; ring

lemma cross_neg_neg (ax ay bx b_y : Int) :
    cross (-ax) (-ay) (-bx) (-b_y) = cross ax ay bx b_y := by
  unfold cross; ring

/-- 2D vectors are linearly dependent three at a time (x component):
`cross a c * bx = cross a b * cx + cross b c * ax`. -/
lemma cross_identity_x (ax ay bx b_y cx cy : Int) :
    cross ax ay cx cy * bx = cross ax ay bx b_y * cx + cross bx b_y cx cy * ax := by
  unfold cross; ring

/-- 2D vectors are linearly dependent three at a time (y component). -/
lemma cross_identity_y (ax ay bx b_y cx cy : Int) :
    cross ax ay cx cy * b_y = cross ax ay bx b_y * cy + cross bx b_y cx cy * ay := by
  unfold cross; ring

/-- Brahmagupta–Fibonacci on the exact (unwrapped) squared norms:
`dot² + cross² = (ax² + ay²)(bx² + by²)`. -/
lemma dot_sq_add_cross_sq (ax ay bx b_y : Int) :
    dot ax ay bx b_y ^ 2 + cross ax ay bx b_y ^ 2 =
      (ax * ax + ay * ay) * (bx * bx + b_y * b_y) := by
  unfold dot cross; ring

lemma sq_add_sq_pos {x y : Int} (h : ¬(x = 0 ∧ y = 0)) : 0 < x * x + y * y := by
  rcases Decidable.em (x = 0) with hx | hx
  · have hy : y ≠ 0 := fun hy => h ⟨hx, hy⟩
    have h1 : 0 < y * y := mul_self_pos.mpr hy
    have h2 : 0 ≤ x * x := mul_self_nonneg x
    linarith
  · have h1 : 0 < x * x := mul_self_pos.mpr hx
    have h2 : 0 ≤ y * y := mul_self_nonneg y
    linarith

lemma sq_add_sq_nonneg (x y : Int) : 0 ≤ x * x + y * y :=
  add_nonneg (mul_self_nonneg x) (mul_self_nonneg y)

/-! ### Half-plane classification -/

/-- Strict membership in the upper half-circle of directions, as it holds
for non-origin points classified `upper_half = true`. -/
def strictUpper (x y : Int) : Prop := 0 < y ∨ (y = 0 ∧ 0 < x)

lemma upper_half_eq_true_iff (x y : Int) :
    upper_half x y = true ↔ (0 < y ∨ (y = 0 ∧ 0 ≤ x)) := by
  simp [upper_half]

lemma upper_half_true_of_ne {x y : Int} (h : ¬(x = 0 ∧ y = 0)) :
    upper_half x y = true ↔ strictUpper x y := by
  simp only [upper_half, strictUpper, decide_eq_true_eq]
  omega

lemma upper_half_false_of_ne {x y : Int} (h : ¬(x = 0 ∧ y = 0)) :
    upper_half x y = false ↔ strictUpper (-x) (-y) := by
  simp only [upper_half, strictUpper, decide_eq_false_iff_not]
  omega

/-! ### Branch characterizations of the comparator -/

lemma cmp_origin_first (a b : Int × Int) (t : TieBreak)
    (h : (a.1 = 0 ∧ a.2 = 0) ∨ (b.1 = 0 ∧ b.2 = 0)) :
    cmp_by_argument_i64 a b { origin := OriginPolicy.First, tie := t } =
      some (cmpBool (decide (b.1 = 0 ∧ b.2 = 0)) (decide (a.1 = 0 ∧ a.2 = 0))) := by
  have hor : (decide (a.1 = 0 ∧ a.2 = 0) || decide (b.1 = 0 ∧ b.2 = 0)) = true := by
    rcases h with h | h <;> simp [h]
  simp only [cmp_by_argument_i64]
  rw [hor]
  rfl

lemma cmp_origin_last (a b : Int × Int) (t : TieBreak)
    (h : (a.1 = 0 ∧ a.2 = 0) ∨ (b.1 = 0 ∧ b.2 = 0)) :
    cmp_by_argument_i64 a b { origin := OriginPolicy.Last, tie := t } =
      some (cmpBool (decide (a.1 = 0 ∧ a.2 = 0)) (decide (b.1 = 0 ∧ b.2 = 0))) := by
  have hor : (decide (a.1 = 0 ∧ a.2 = 0) || decide (b.1 = 0 ∧ b.2 = 0)) = true := by
    rcases h with h | h <;> simp [h]
  simp only [cmp_by_argument_i64]
  rw [hor]
  rfl

lemma cmp_origin_forbid (a b : Int × Int) (t : TieBreak)
    (h : (a.1 = 0 ∧ a.2 = 0) ∨ (b.1 = 0 ∧ b.2 = 0)) :
    cmp_by_argument_i64 a b { origin := OriginPolicy.Forbid, tie := t } = none := by
  have hor : (decide (a.1 = 0 ∧ a.2 = 0) || decide (b.1 = 0 ∧ b.2 = 0)) = true := by
    rcases h with h | h <;> simp [h]
  simp only [cmp_by_argument_i64]
  rw [hor]
  rfl

lemma cmp_nonorigin (a b : Int × Int) (opt : ArgSortOptions)
    (ha : ¬(a.1 = 0 ∧ a.2 = 0)) (hb : ¬(b.1 = 0 ∧ b.2 = 0)) :
    cmp_by_argument_i64 a b opt =
      if upper_half a.1 a.2 != upper_half b.1 b.2 then
        some (cmpBool (upper_half b.1 b.2) (upper_half a.1 a.2))
      else if cross a.1 a.2 b.1 b.2 ≠ 0 then
        some (if 0 < cross a.1 a.2 b.1 b.2 then Ordering.lt else Ordering.gt)
      else some (tie_break_cmp a b opt.tie) := by
  have h1 : decide (a.1 = 0 ∧ a.2 = 0) = false := decide_eq_false ha
  have h2 : decide (b.1 = 0 ∧ b.2 = 0) = false := decide_eq_false hb
  simp only [cmp_by_argument_i64]
  rw [h1, h2]
  show (if upper_half a.1 a.2 != upper_half b.1 b.2 then
        some (cmpBool (upper_half b.1 b.2) (upper_half a.1 a.2))
      else if cross a.1 a.2 b.1 b.2 ≠ 0 then
        some (if 0 < cross a.1 a.2 b.1 b.2 then Ordering.lt else Ordering.gt)
      else
        match opt.tie with
        | TieBreak.Norm2Asc => some (cmpInt (norm2 a.1 a.2) (norm2 b.1 b.2))
        | TieBreak.Lex => some (cmpPair a b)) = _
  cases opt.tie <;> rfl

/-! ### Claims C2, C4, C5, C6, C7 (comparator branches), C8, C9 (angle) -/

/-- Claim C2: under the `Forbid` origin policy, `cmp_by_argument_i64`
panics (returns `none` in this model) exactly when at least one of the
two compared points is the origin `(0,0)`, for either tie-break
setting; with two non-origin points it never panics. -/
theorem c2_forbid_panics_iff (a b : Int × Int) (t : TieBreak) :
    cmp_by_argument_i64 a b { origin := OriginPolicy.Forbid, tie := t } = none ↔
      a = (0, 0) ∨ b = (0, 0) := by
  constructor
  · intro h
    by_contra hc
    push_neg at hc
    have ha : ¬(a.1 = 0 ∧ a.2 = 0) := fun hh => hc.1 (Prod.ext hh.1 hh.2)
    have hb : ¬(b.1 = 0 ∧ b.2 = 0) := fun hh => hc.2 (Prod.ext hh.1 hh.2)
    rw [cmp_nonorigin a b _ ha hb] at h
    split_ifs at h <;> simp at h
  · intro h
    apply cmp_origin_forbid
    rcases h with h | h
    · exact Or.inl (by rw [h]; exact ⟨rfl, rfl⟩)
    · exact Or.inr (by rw [h]; exact ⟨rfl, rfl⟩)

/-- Closed instance of C2 at concrete points. -/
theorem c2_forbid_panics_iff_witness :
    cmp_by_argument_i64 ((0, 0) : Int × Int) (1, 0)
        { origin := OriginPolicy.Forbid, tie := TieBreak.Norm2Asc } = none ↔
      ((0, 0) : Int × Int) = (0, 0) ∨ ((1, 0) : Int × Int) = (0, 0) :=
  c2_forbid_panics_iff (0, 0) (1, 0) TieBreak.Norm2Asc

/-- Claim C4: `upper_half` classifies `(x,y)` as upper exactly when
`y > 0` or (`y = 0` and `x ≥ 0`); and for two non-origin points in
different half-planes the upper-half point compares `Less` (and the
lower-half point compares `Greater`), for every policy and tie-break. -/
theorem c4_half_plane_split :
    (∀ x y : Int, upper_half x y = true ↔ (0 < y ∨ (y = 0 ∧ 0 ≤ x))) ∧
    (∀ (a b : Int × Int) (opt : ArgSortOptions),
      ¬(a.1 = 0 ∧ a.2 = 0) → ¬(b.1 = 0 ∧ b.2 = 0) →
      upper_half a.1 a.2 = true → upper_half b.1 b.2 = false →
      cmp_by_argument_i64 a b opt = some Ordering.lt ∧
      cmp_by_argument_i64 b a opt = some Ordering.gt) := by
  refine ⟨upper_half_eq_true_iff, ?_⟩
  intro a b opt ha hb hua hub
  constructor
  · rw [cmp_nonorigin a b opt ha hb, hua, hub]
    rfl
  · rw [cmp_nonorigin b a opt hb ha, hua, hub]
    rfl

/-- Closed instance of C4 at concrete points. -/
theorem c4_half_plane_split_witness :
    (upper_half 2 0 = true ↔ (0 < (0 : Int) ∨ ((0 : Int) = 0 ∧ 0 ≤ (2 : Int)))) ∧
    (cmp_by_argument_i64 ((1, 1) : Int × Int) (1, -1) ArgSortOptions.default =
        some Ordering.lt ∧
      cmp_by_argument_i64 ((1, -1) : Int × Int) (1, 1) ArgSortOptions.default =
        some Ordering.gt) :=
  ⟨c4_half_plane_split.1 2 0,
   c4_half_plane_split.2 (1, 1) (1, -1) ArgSortOptions.default
     (by decide) (by decide) (by decide) (by decide)⟩

/-- Claim C5: for non-origin points in the same half-plane the comparator
returns `Less` when `cross a b > 0`, `Greater` when `cross a b < 0`, and
falls through to the configured tie-break when `cross a b = 0`, for every
policy and tie-break. -/
theorem c5_same_half_cross_sign (a b : Int × Int) (opt : ArgSortOptions)
    (ha : ¬(a.1 = 0 ∧ a.2 = 0)) (hb : ¬(b.1 = 0 ∧ b.2 = 0))
    (hh : upper_half a.1 a.2 = upper_half b.1 b.2) :
    (0 < cross a.1 a.2 b.1 b.2 →
      cmp_by_argument_i64 a b opt = some Ordering.lt) ∧
    (cross a.1 a.2 b.1 b.2 < 0 →
      cmp_by_argument_i64 a b opt = some Ordering.gt) ∧
    (cross a.1 a.2 b.1 b.2 = 0 →
      cmp_by_argument_i64 a b opt = some (tie_break_cmp a b opt.tie)) := by
  rw [cmp_nonorigin a b opt ha hb, hh]
  have hne : ¬((upper_half b.1 b.2 != upper_half b.1 b.2) = true) := by simp
  rw [if_neg hne]
  refine ⟨fun hcr => ?_, fun hcr => ?_, fun hcr => ?_⟩
  · rw [if_pos (by omega), if_pos hcr]
  · rw [if_pos (by omega), if_neg (by omega)]
  · rw [if_neg (by omega)]

/-- Closed instance of C5 at concrete points. -/
theorem c5_same_half_cross_sign_witness :
    upper_half 1 0 = upper_half 0 1 ∧
    (0 < cross 1 0 0 1 →
      cmp_by_argument_i64 ((1, 0) : Int × Int) (0, 1) ArgSortOptions.default =
        some Ordering.lt) :=
  ⟨by decide,
   (c5_same_half_cross_sign (1, 0) (0, 1) ArgSortOptions.default
     (by decide) (by decide) (by decide)).1⟩

/-- Claim C6: with an origin argument, `First` puts the origin strictly
before every non-origin point (`Last` strictly after), and origin versus
origin compares `Equal`, for both tie-break settings. -/
theorem c6_origin_first_last (t : TieBreak) (p : Int × Int) (hp : p ≠ (0, 0)) :
    cmp_by_argument_i64 (0, 0) p { origin := OriginPolicy.First, tie := t } =
      some Ordering.lt ∧
    cmp_by_argument_i64 p (0, 0) { origin := OriginPolicy.First, tie := t } =
      some Ordering.gt ∧
    cmp_by_argument_i64 (0, 0) (0, 0) { origin := OriginPolicy.First, tie := t } =
      some Ordering.eq ∧
    cmp_by_argument_i64 (0, 0) p { origin := OriginPolicy.Last, tie := t } =
      some Ordering.gt ∧
    cmp_by_argument_i64 p (0, 0) { origin := OriginPolicy.Last, tie := t } =
      some Ordering.lt ∧
    cmp_by_argument_i64 (0, 0) (0, 0) { origin := OriginPolicy.Last, tie := t } =
      some Ordering.eq := by
  have hp' : ¬(p.1 = 0 ∧ p.2 = 0) := fun hc => hp (Prod.ext hc.1 hc.2)
  have hd : decide (p.1 = 0 ∧ p.2 = 0) = false := decide_eq_false hp'
  refine ⟨?_, ?_, ?_, ?_, ?_, ?_⟩
  · rw [cmp_origin_first _ _ _ (Or.inl ⟨rfl, rfl⟩), hd]
    rfl
  · rw [cmp_origin_first _ _ _ (Or.inr ⟨rfl, rfl⟩), hd]
    rfl
  · rw [cmp_origin_first _ _ _ (Or.inl ⟨rfl, rfl⟩)]
    rfl
  · rw [cmp_origin_last _ _ _ (Or.inl ⟨rfl, rfl⟩), hd]
    rfl
  · rw [cmp_origin_last _ _ _ (Or.inr ⟨rfl, rfl⟩), hd]
    rfl
  · rw [cmp_origin_last _ _ _ (Or.inl ⟨rfl, rfl⟩)]
    rfl

/-- Closed instance of C6 at a concrete point. -/
theorem c6_origin_first_last_witness :
    ((2, 3) : Int × Int) ≠ (0, 0) ∧
    (cmp_by_argument_i64 (0, 0) ((2, 3) : Int × Int)
        { origin := OriginPolicy.First, tie := TieBreak.Lex } = some Ordering.lt ∧
      cmp_by_argument_i64 ((2, 3) : Int × Int) (0, 0)
        { origin := OriginPolicy.First, tie := TieBreak.Lex } = some Ordering.gt ∧
      cmp_by_argument_i64 ((0, 0) : Int × Int) (0, 0)
        { origin := OriginPolicy.First, tie := TieBreak.Lex } = some Ordering.eq ∧
      cmp_by_argument_i64 (0, 0) ((2, 3) : Int × Int)
        { origin := OriginPolicy.Last, tie := TieBreak.Lex } = some Ordering.gt ∧
      cmp_by_argument_i64 ((2, 3) : Int × Int) (0, 0)
        { origin := OriginPolicy.Last, tie := TieBreak.Lex } = some Ordering.lt ∧
      cmp_by_argument_i64 ((0, 0) : Int × Int) (0, 0)
        { origin := OriginPolicy.Last, tie := TieBreak.Lex } = some Ordering.eq) :=
  ⟨by decide, c6_origin_first_last TieBreak.Lex (2, 3) (by decide)⟩

/-- Claim C7: for non-origin collinear points in the same half-plane,
`Norm2Asc` ties break by comparing the widened (`i128`, hence wrapping
exactly where the machine computation wraps) squared norms ascending,
and `Lex` ties break by the lexicographic comparison of the
coordinates, for every origin policy. -/
theorem c7_tie_break_rules (a b : Int × Int) (po : OriginPolicy)
    (ha : ¬(a.1 = 0 ∧ a.2 = 0)) (hb : ¬(b.1 = 0 ∧ b.2 = 0))
    (hh : upper_half a.1 a.2 = upper_half b.1 b.2)
    (hcr : cross a.1 a.2 b.1 b.2 = 0) :
    cmp_by_argument_i64 a b { origin := po, tie := TieBreak.Norm2Asc } =
      some (cmpInt (norm2 a.1 a.2) (norm2 b.1 b.2)) ∧
    cmp_by_argument_i64 a b { origin := po, tie := TieBreak.Lex } =
      some (cmpPair a b) := by
  have hne : ¬((upper_half b.1 b.2 != upper_half b.1 b.2) = true) := by simp
  constructor
  · rw [cmp_nonorigin a b _ ha hb, hh, if_neg hne, if_neg (by omega)]
    rfl
  · rw [cmp_nonorigin a b _ ha hb, hh, if_neg hne, if_neg (by omega)]
    rfl

/-- Closed instance of C7 at concrete points. -/
theorem c7_tie_break_rules_witness :
    upper_half 1 1 = upper_half 2 2 ∧ cross 1 1 2 2 = 0 ∧
    (cmp_by_argument_i64 ((1, 1) : Int × Int) (2, 2)
        { origin := OriginPolicy.Forbid, tie := TieBreak.Norm2Asc } =
      some (cmpInt (norm2 1 1) (norm2 2 2)) ∧
      cmp_by_argument_i64 ((1, 1) : Int × Int) (2, 2)
        { origin := OriginPolicy.Forbid, tie := TieBreak.Lex } =
      some (cmpPair (1, 1) (2, 2))) :=
  ⟨by decide, by decide,
   c7_tie_break_rules (1, 1) (2, 2) OriginPolicy.Forbid
     (by decide) (by decide) (by decide) (by decide)⟩

/-- Claim C8: `angle_between` returns exactly `0.0` whenever either
argument is the zero vector, for every value of the abstract
`atan2`-composite `f` (so in particular for the real one). -/
theorem c8_zero_vector_angle_zero {α : Type} [Zero α] (f : Int → Int → α)
    (a b : Int × Int) :
    angle_between f (0, 0) b = 0 ∧ angle_between f a (0, 0) = 0 := by
  constructor <;> simp [angle_between]

/-- Closed instance of C8 with a concrete interpretation of `f`. -/
theorem c8_zero_vector_angle_zero_witness :
    angle_between (fun x y : Int => x + y) ((0, 0) : Int × Int) (5, 7) = 0 ∧
    angle_between (fun x y : Int => x + y) ((5, 7) : Int × Int) (0, 0) = 0 :=
  c8_zero_vector_angle_zero (fun x y : Int => x + y) (5, 7) (5, 7)

/-- Claim C9: `angle_between` is symmetric for non-zero vectors: the guard
is symmetric and `|cross(a,b)| = |cross(b,a)|`, `dot(a,b) = dot(b,a)` feed
the same `atan2` call, so the produced value is identical. -/
theorem c9_angle_symm {α : Type} [Zero α] (f : Int → Int → α) (a b : Int × Int)
    (ha : a ≠ (0, 0)) (hb : b ≠ (0, 0)) :
    angle_between f a b = angle_between f b a := by
  have ha' : ¬(a.1 = 0 ∧ a.2 = 0) := fun hc => ha (Prod.ext hc.1 hc.2)
  have hb' : ¬(b.1 = 0 ∧ b.2 = 0) := fun hc => hb (Prod.ext hc.1 hc.2)
  unfold angle_between
  rw [if_neg (by tauto), if_neg (by tauto)]
  rw [cross_anticomm a.1 a.2 b.1 b.2, abs_neg, dot_comm b.1 b.2 a.1 a.2]

/-- Closed instance of C9 with a concrete interpretation of `f`. -/
theorem c9_angle_symm_witness :
    ((3, 4) : Int × Int) ≠ (0, 0) ∧ ((-5, 2) : Int × Int) ≠ (0, 0) ∧
    angle_between (fun x y : Int => x + y) ((3, 4) : Int × Int) (-5, 2) =
      angle_between (fun x y : Int => x + y) ((-5, 2) : Int × Int) (3, 4) :=
  ⟨by decide, by decide,
   c9_angle_symm (fun x y : Int => x + y) (3, 4) (-5, 2) (by decide) (by decide)⟩

/-! ### Claim C3: the `i128`-widened arithmetic and its overflow corner -/

lemma mul_le_pow126 {a b : Int} (ha : isI64 a) (hb : isI64 b) : a * b ≤ 2 ^ 126 := by
  obtain ⟨ha1, ha2⟩ := ha
  obtain ⟨hb1, hb2⟩ := hb
  rcases le_or_lt 0 a with h0 | h0
  · have h1 : a * b ≤ a * (2 ^ 63 - 1) := mul_le_mul_of_nonneg_left (by omega) h0
    have h2 : a * (2 ^ 63 - 1) ≤ (2 ^ 63 - 1) * (2 ^ 63 - 1) :=
      mul_le_mul_of_nonneg_right (by omega) (by norm_num)
    have h3 : ((2 : Int) ^ 63 - 1) * (2 ^ 63 - 1) ≤ 2 ^ 126 := by norm_num
    linarith
  · have h1 : a * b ≤ a * (-(2 ^ 63)) := mul_le_mul_of_nonpos_left hb1 (le_of_lt h0)
    have h2 : a * (-(2 ^ 63)) ≤ (-(2 ^ 63)) * (-(2 ^ 63)) :=
      mul_le_mul_of_nonpos_right ha1 (by norm_num)
    have h3 : ((-(2 ^ 63)) : Int) * (-(2 ^ 63)) = 2 ^ 126 := by norm_num
    linarith

lemma neg_pow126_le_mul {a b : Int} (ha : isI64 a) (hb : isI64 b) :
    -(2 ^ 126) + 2 ^ 63 ≤ a * b := by
  obtain ⟨ha1, ha2⟩ := ha
  obtain ⟨hb1, hb2⟩ := hb
  rcases le_or_lt 0 a with h0 | h0
  · have h1 : a * (-(2 ^ 63)) ≤ a * b := mul_le_mul_of_nonneg_left hb1 h0
    have h2 : (2 ^ 63 - 1) * (-(2 ^ 63)) ≤ a * (-(2 ^ 63)) :=
      mul_le_mul_of_nonpos_right (by omega) (by norm_num)
    have h3 : ((2 : Int) ^ 63 - 1) * (-(2 ^ 63)) = -(2 ^ 126) + 2 ^ 63 := by norm_num
    linarith
  · have h1 : a * (2 ^ 63 - 1) ≤ a * b := mul_le_mul_of_nonpos_left (by omega) (le_of_lt h0)
    have h2 : (-(2 ^ 63)) * (2 ^ 63 - 1) ≤ a * (2 ^ 63 - 1) :=
      mul_le_mul_of_nonneg_right ha1 (by norm_num)
    have h3 : ((-(2 ^ 63)) : Int) * (2 ^ 63 - 1) = -(2 ^ 126) + 2 ^ 63 := by norm_num
    linarith

lemma mul_eq_pow126 {a b : Int} (ha : isI64 a) (hb : isI64 b)
    (h : a * b = 2 ^ 126) : a = -(2 ^ 63) ∧ b = -(2 ^ 63) := by
  obtain ⟨ha1, ha2⟩ := ha
  obtain ⟨hb1, hb2⟩ := hb
  rcases le_or_lt 0 a with h0 | h0
  · exfalso
    have h1 : a * b ≤ a * (2 ^ 63 - 1) := mul_le_mul_of_nonneg_left (by omega) h0
    have h2 : a * (2 ^ 63 - 1) ≤ (2 ^ 63 - 1) * (2 ^ 63 - 1) :=
      mul_le_mul_of_nonneg_right (by omega) (by norm_num)
    have h3 : ((2 : Int) ^ 63 - 1) * (2 ^ 63 - 1) < 2 ^ 126 := by norm_num
    linarith
  · have hbeq : b = -(2 ^ 63) := by
      by_contra hbne
      have hb1' : -(2 ^ 63) + 1 ≤ b := by omega
      have h1 : a * b ≤ a * (-(2 ^ 63) + 1) :=
        mul_le_mul_of_nonpos_left hb1' (le_of_lt h0)
      have h2 : a * (-(2 ^ 63) + 1) = a * (-(2 ^ 63)) + a := by ring
      have h3 : a * (-(2 ^ 63)) ≤ (-(2 ^ 63)) * (-(2 ^ 63)) :=
        mul_le_mul_of_nonpos_right ha1 (by norm_num)
      have h4 : ((-(2 ^ 63)) : Int) * (-(2 ^ 63)) = 2 ^ 126 := by norm_num
      linarith
    subst hbeq
    refine ⟨?_, rfl⟩
    have h5 : a * (-(2 ^ 63)) = (-(2 ^ 63)) * (-(2 ^ 63)) := by
      rw [h]; norm_num
    exact mul_right_cancel₀ (show ((-(2 ^ 63)) : Int) ≠ 0 by norm_num) h5

/-- Claim C3 counterexample: at `ax = ay = bx = by = -2^63` (all four
components in the `i64` range) the mathematical value of
`dot` is exactly `2^127`, which does not fit in `i128`
(whose maximum is `2^127 - 1`): the widened computation overflows there,
so `dot` is not overflow-free for every 64-bit input. -/
theorem c3_dot_overflow_counterexample :
    isI64 (-(2 ^ 63)) ∧
    dot (-(2 ^ 63)) (-(2 ^ 63)) (-(2 ^ 63)) (-(2 ^ 63)) = 2 ^ 127 ∧
    ¬i128Fits (dot (-(2 ^ 63)) (-(2 ^ 63)) (-(2 ^ 63)) (-(2 ^ 63))) := by
  refine ⟨⟨by norm_num, by norm_num⟩, by unfold dot; norm_num, ?_⟩
  intro hf
  have h2 := hf.2
  unfold dot at h2
  norm_num at h2

/-- Claim C3 amended: `cross` and `dot` compute the exact mathematical
integers `ax*by - ay*bx` and `ax*bx + ay*by`; for all `i64` inputs the
widened `cross` always fits in `i128`, and the widened `dot` fits in
`i128` for every input except the single corner
`ax = ay = bx = by = -2^63`. -/
theorem c3_widened_arithmetic_amended (ax ay bx b_y : Int)
    (ha : isI64 ax) (hb : isI64 ay) (hc : isI64 bx) (hd : isI64 b_y) :
    cross ax ay bx b_y = ax * b_y - ay * bx ∧
    dot ax ay bx b_y = ax * bx + ay * b_y ∧
    i128Fits (cross ax ay bx b_y) ∧
    (¬(ax = -(2 ^ 63) ∧ ay = -(2 ^ 63) ∧ bx = -(2 ^ 63) ∧ b_y = -(2 ^ 63)) →
      i128Fits (dot ax ay bx b_y)) := by
  have e : (2 : Int) ^ 127 = 2 ^ 126 + 2 ^ 126 := by norm_num
  have e2 : (0 : Int) < 2 ^ 63 := by norm_num
  refine ⟨rfl, rfl, ⟨?_, ?_⟩, ?_⟩
  · unfold cross
    have h1 := neg_pow126_le_mul ha hd
    have h2 := mul_le_pow126 hb hc
    linarith
  · unfold cross
    have h1 := mul_le_pow126 ha hd
    have h2 := neg_pow126_le_mul hb hc
    linarith
  · intro hne
    constructor
    · unfold dot
      have h1 := neg_pow126_le_mul ha hc
      have h2 := neg_pow126_le_mul hb hd
      linarith
    · unfold dot
      by_contra hge
      push_neg at hge
      have h1 := mul_le_pow126 ha hc
      have h2 := mul_le_pow126 hb hd
      have e1 : ax * bx = 2 ^ 126 := by linarith
      have e2' : ay * b_y = 2 ^ 126 := by linarith
      obtain ⟨u1, u2⟩ := mul_eq_pow126 ha hc e1
      obtain ⟨u3, u4⟩ := mul_eq_pow126 hb hd e2'
      exact hne ⟨u1, u3, u2, u4⟩

/-- Closed instance of the amended C3 at concrete inputs. -/
theorem c3_widened_arithmetic_amended_witness :
    isI64 3 ∧ isI64 4 ∧ isI64 (-5) ∧ isI64 2 ∧
    (cross 3 4 (-5) 2 = 3 * 2 - 4 * (-5) ∧
     dot 3 4 (-5) 2 = 3 * (-5) + 4 * 2 ∧
     i128Fits (cross 3 4 (-5) 2) ∧
     (¬((3 : Int) = -(2 ^ 63) ∧ (4 : Int) = -(2 ^ 63) ∧
         (-5 : Int) = -(2 ^ 63) ∧ (2 : Int) = -(2 ^ 63)) →
       i128Fits (dot 3 4 (-5) 2))) :=
  ⟨by decide, by decide, by decide, by decide,
   c3_widened_arithmetic_amended 3 4 (-5) 2
     (by decide) (by decide) (by decide) (by decide)⟩

/-! ### Claim C10: `Equal` is only reported for identical non-origin points -/

lemma wrap128_eq_self {n : Int} (h1 : -(2 ^ 127) ≤ n) (h2 : n < 2 ^ 127) :
    wrap128 n = n := by
  unfold wrap128
  have h3 : 0 ≤ n + 2 ^ 127 := by linarith
  have h4 : n + 2 ^ 127 < 2 ^ 128 := by
    have e : (2 : Int) ^ 128 = 2 ^ 127 + 2 ^ 127 := by norm_num
    linarith
  rw [Int.emod_eq_of_lt h3 h4]
  ring

lemma wrap128_top : wrap128 (2 ^ 127) = -(2 ^ 127) := by
  unfold wrap128
  have e : (2 : Int) ^ 127 + 2 ^ 127 = 2 ^ 128 := by norm_num
  rw [e, Int.emod_self]
  norm_num

/-- For `i64` components the exact squared norm never exceeds `2^127`. -/
lemma sq_add_sq_le_pow127 {x y : Int} (hx : isI64 x) (hy : isI64 y) :
    x * x + y * y ≤ 2 ^ 127 := by
  have h1 := mul_le_pow126 hx hx
  have h2 := mul_le_pow126 hy hy
  have e : (2 : Int) ^ 127 = 2 ^ 126 + 2 ^ 126 := by norm_num
  linarith

/-- The exact squared norm of an `i64` point reaches `2^127` only at the
corner `x = y = -2^63`. -/
lemma sq_add_sq_eq_pow127 {x y : Int} (hx : isI64 x) (hy : isI64 y)
    (h : x * x + y * y = 2 ^ 127) : x = -(2 ^ 63) ∧ y = -(2 ^ 63) := by
  have h1 := mul_le_pow126 hx hx
  have h2 := mul_le_pow126 hy hy
  have e : (2 : Int) ^ 127 = 2 ^ 126 + 2 ^ 126 := by norm_num
  have e1 : x * x = 2 ^ 126 := by linarith
  have e2 : y * y = 2 ^ 126 := by linarith
  exact ⟨(mul_eq_pow126 hx hx e1).1, (mul_eq_pow126 hy hy e2).1⟩

/-- Away from `2^127` the wrapped `norm2` equals the exact squared norm. -/
lemma norm2_eq_exact {x y : Int} (hx : isI64 x) (hy : isI64 y)
    (h : x * x + y * y ≠ 2 ^ 127) : norm2 x y = x * x + y * y := by
  unfold norm2
  have h0 := sq_add_sq_nonneg x y
  have hle := sq_add_sq_le_pow127 hx hy
  have hneg : -((2 : Int) ^ 127) ≤ 0 := by norm_num
  exact wrap128_eq_self (by linarith) (lt_of_le_of_ne hle h)

/-- The `i128` `norm2` wraps at the single `i64` corner, to `-2^127`. -/
lemma norm2_corner : norm2 (-(2 ^ 63)) (-(2 ^ 63)) = -(2 ^ 127) := by
  unfold norm2
  have e : (-((2 : Int) ^ 63)) * (-(2 ^ 63)) + (-(2 ^ 63)) * (-(2 ^ 63)) = 2 ^ 127 := by
    norm_num
  rw [e]
  exact wrap128_top

/-- On the `i64` domain, equal wrapped norms mean equal exact norms: the
wrap moves only the value `2^127` (to `-2^127`), which no other `i64`
point's norm attains. -/
lemma norm2_eq_iff {x y u v : Int} (hx : isI64 x) (hy : isI64 y)
    (hu : isI64 u) (hv : isI64 v) :
    norm2 x y = norm2 u v ↔ x * x + y * y = u * u + v * v := by
  by_cases hp : x * x + y * y = 2 ^ 127
  · by_cases hq : u * u + v * v = 2 ^ 127
    · constructor
      · intro _
        rw [hp, hq]
      · intro _
        unfold norm2
        rw [hp, hq]
    · have hnq := norm2_eq_exact hu hv hq
      have hnp : norm2 x y = -(2 ^ 127) := by
        unfold norm2
        rw [hp]
        exact wrap128_top
      constructor
      · intro h
        exfalso
        rw [hnp, hnq] at h
        have h0 := sq_add_sq_nonneg u v
        have hpos : (0 : Int) < 2 ^ 127 := by norm_num
        linarith
      · intro h
        exact (hq (by linarith)).elim
  · by_cases hq : u * u + v * v = 2 ^ 127
    · have hnp := norm2_eq_exact hx hy hp
      have hnq : norm2 u v = -(2 ^ 127) := by
        unfold norm2
        rw [hq]
        exact wrap128_top
      constructor
      · intro h
        exfalso
        rw [hnp, hnq] at h
        have h0 := sq_add_sq_nonneg x y
        have hpos : (0 : Int) < 2 ^ 127 := by norm_num
        linarith
      · intro h
        exact (hp (by linarith)).elim
    · rw [norm2_eq_exact hx hy hp, norm2_eq_exact hu hv hq]

/-- Two non-origin points that are collinear with the origin and lie in
the same half-plane point in the same direction: their dot product is
strictly positive. -/
lemma dot_pos_of_collinear_same_half {ax ay bx b_y : Int}
    (ha : ¬(ax = 0 ∧ ay = 0)) (hb : ¬(bx = 0 ∧ b_y = 0))
    (hcr : cross ax ay bx b_y = 0)
    (hh : upper_half ax ay = upper_half bx b_y) :
    0 < dot ax ay bx b_y := by
  unfold cross at hcr
  unfold dot
  unfold upper_half at hh
  have hiff := decide_eq_decide.mp hh
  rcases Decidable.em (ay = 0) with hay | hay
  · subst hay
    have hax : ax ≠ 0 := by tauto
    have hb_y : b_y = 0 := by
      rcases mul_eq_zero.mp (by linarith : ax * b_y = 0) with h | h
      · exact absurd h hax
      · exact h
    subst hb_y
    have hbx : bx ≠ 0 := by tauto
    have hsign : 0 ≤ ax ↔ 0 ≤ bx := by omega
    have hprod : 0 < ax * bx := by
      rcases lt_trichotomy ax 0 with h | h | h
      · exact mul_pos_of_neg_of_neg h (by omega)
      · exact absurd h hax
      · exact mul_pos h (by omega)
    nlinarith [hprod]
  · have hb_y : b_y ≠ 0 := by
      intro h0
      subst h0
      have hz : ay * bx = 0 := by linarith
      rcases mul_eq_zero.mp hz with h | h
      · exact hay h
      · exact hb ⟨h, rfl⟩
    have hyy : 0 < ay ↔ 0 < b_y := by omega
    have hprod : 0 < ay * b_y := by
      rcases lt_trichotomy ay 0 with h | h | h
      · exact mul_pos_of_neg_of_neg h (by omega)
      · exact absurd h hay
      · exact mul_pos h (hyy.mp h)
    have key : (ax * bx + ay * b_y) * (ay * b_y) = (ay * bx) ^ 2 + (ay * b_y) ^ 2 := by
      have h' : ax * b_y = ay * bx := by linarith
      calc (ax * bx + ay * b_y) * (ay * b_y)
          = (ax * b_y) * (ay * bx) + (ay * b_y) ^ 2 := by ring
        _ = (ay * bx) ^ 2 + (ay * b_y) ^ 2 := by rw [h']; ring
    have hpos : 0 < (ax * bx + ay * b_y) * (ay * b_y) := by
      rw [key]
      have h2 : 0 < (ay * b_y) ^ 2 := pow_pos hprod 2
      nlinarith [sq_nonneg (ay * bx)]
    nlinarith [hpos, hprod]

/-- Collinear non-origin points in the same half-plane with equal exact
squared norm are the same point. -/
lemma eq_of_collinear_same_half_same_norm {ax ay bx b_y : Int}
    (ha : ¬(ax = 0 ∧ ay = 0)) (hb : ¬(bx = 0 ∧ b_y = 0))
    (hcr : cross ax ay bx b_y = 0)
    (hh : upper_half ax ay = upper_half bx b_y)
    (hn : ax * ax + ay * ay = bx * bx + b_y * b_y) :
    ax = bx ∧ ay = b_y := by
  have hdot := dot_pos_of_collinear_same_half ha hb hcr hh
  have hid := dot_sq_add_cross_sq ax ay bx b_y
  rw [hcr, ← hn] at hid
  norm_num at hid
  have hN := sq_add_sq_pos ha
  have hdN : dot ax ay bx b_y = ax * ax + ay * ay := by
    have hfac : (dot ax ay bx b_y - (ax * ax + ay * ay)) *
        (dot ax ay bx b_y + (ax * ax + ay * ay)) = 0 := by
      linear_combination hid
    rcases mul_eq_zero.mp hfac with h | h
    · linarith
    · exfalso; linarith
  have hz : (ax - bx) ^ 2 + (ay - b_y) ^ 2 = 0 := by
    have hexp : (ax * ax + ay * ay) + (bx * bx + b_y * b_y) -
        2 * dot ax ay bx b_y = (ax - bx) ^ 2 + (ay - b_y) ^ 2 := by
      unfold dot; ring
    rw [← hexp, hdN, ← hn]; ring
  constructor
  · have h1 : (ax - bx) ^ 2 = 0 := by
      nlinarith [sq_nonneg (ax - bx), sq_nonneg (ay - b_y)]
    have h2 : ax - bx = 0 := (pow_eq_zero_iff two_ne_zero).mp h1
    omega
  · have h1 : (ay - b_y) ^ 2 = 0 := by
      nlinarith [sq_nonneg (ax - bx), sq_nonneg (ay - b_y)]
    have h2 : ay - b_y = 0 := (pow_eq_zero_iff two_ne_zero).mp h1
    omega

/-- Claim C10: for every option set and all non-origin `i64` points,
`cmp_by_argument_i64` returns `Equal` exactly when the two points are the
same point (under `Norm2Asc` the program compares the wrapped `i128`
norms, and on the `i64` domain equal wrapped norms force equal exact
norms, which with collinearity in one half-plane force equal points). -/
theorem c10_equal_iff_same_point (a b : Int × Int) (opt : ArgSortOptions)
    (hia : isI64Pair a) (hib : isI64Pair b)
    (ha : a ≠ (0, 0)) (hb : b ≠ (0, 0)) :
    cmp_by_argument_i64 a b opt = some Ordering.eq ↔ a = b := by
  have ha' : ¬(a.1 = 0 ∧ a.2 = 0) := fun hc => ha (Prod.ext hc.1 hc.2)
  have hb' : ¬(b.1 = 0 ∧ b.2 = 0) := fun hc => hb (Prod.ext hc.1 hc.2)
  rw [cmp_nonorigin a b opt ha' hb']
  constructor
  · intro h
    by_cases hhb : upper_half a.1 a.2 = upper_half b.1 b.2
    · have hne : ¬((upper_half a.1 a.2 != upper_half b.1 b.2) = true) := by
        simp [hhb]
      rw [if_neg hne] at h
      by_cases hcr : cross a.1 a.2 b.1 b.2 = 0
      · rw [if_neg (by omega)] at h
        have h' : tie_break_cmp a b opt.tie = Ordering.eq := Option.some_injective _ h
        rcases topt : opt.tie with _ | _
        · rw [topt] at h'
          simp only [tie_break_cmp] at h'
          have hnorm : norm2 a.1 a.2 = norm2 b.1 b.2 := cmpInt_eq_eq.mp h'
          have hnexact := (norm2_eq_iff hia.1 hia.2 hib.1 hib.2).mp hnorm
          have heq := eq_of_collinear_same_half_same_norm ha' hb' hcr hhb hnexact
          exact Prod.ext heq.1 heq.2
        · rw [topt] at h'
          simp only [tie_break_cmp] at h'
          exact cmpPair_eq_eq.mp h'
      · rw [if_pos (by omega)] at h
        exfalso
        split_ifs at h <;> simp at h
    · have hbt : (upper_half a.1 a.2 != upper_half b.1 b.2) = true := by
        simp [hhb]
      rw [if_pos hbt] at h
      exfalso
      revert hhb h
      cases upper_half a.1 a.2 <;> cases upper_half b.1 b.2 <;> simp [cmpBool]
  · intro h
    subst h
    have hne : ¬((upper_half a.1 a.2 != upper_half a.1 a.2) = true) := by simp
    rw [if_neg hne, if_neg (by simp [cross_self])]
    rcases topt : opt.tie with _ | _
    · simp [tie_break_cmp, cmpInt_self]
    · simp [tie_break_cmp, cmpPair_self]

/-- Closed instance of C10 at a concrete point. -/
theorem c10_equal_iff_same_point_witness :
    isI64Pair ((1, 2) : Int × Int) ∧ ((1, 2) : Int × Int) ≠ (0, 0) ∧
    (cmp_by_argument_i64 ((1, 2) : Int × Int) (1, 2) ArgSortOptions.default =
        some Ordering.eq ↔ ((1, 2) : Int × Int) = (1, 2)) :=
  ⟨by decide, by decide,
   c10_equal_iff_same_point (1, 2) (1, 2) ArgSortOptions.default
     (by decide) (by decide) (by decide) (by decide)⟩

/-! ### Claim C1: cross-product transitivity inside one half-plane -/

lemma strictUpper_ay_nonneg {ax ay : Int} (h : strictUpper ax ay) : 0 ≤ ay := by
  unfold strictUpper at h
  rcases h with h | ⟨h, _⟩ <;> omega

/-- In the strict upper half-circle, `0 < cross a b` and `0 < cross b c`
give `0 < cross a c`. -/
lemma cross_trans_pos_upper {ax ay bx b_y cx cy : Int}
    (hua : strictUpper ax ay) (hub : strictUpper bx b_y) (huc : strictUpper cx cy)
    (h1 : 0 < cross ax ay bx b_y) (h2 : 0 < cross bx b_y cx cy) :
    0 < cross ax ay cx cy := by
  have hay : 0 ≤ ay := strictUpper_ay_nonneg hua
  unfold strictUpper at hub huc
  rcases hub with hby | ⟨hby0, hbx⟩
  · rcases huc with hcy | ⟨hcy0, hcx⟩
    · have hid := cross_identity_y ax ay bx b_y cx cy
      have hnum : 0 < cross ax ay bx b_y * cy + cross bx b_y cx cy * ay := by
        have t1 : 0 < cross ax ay bx b_y * cy := mul_pos h1 hcy
        have t2 : 0 ≤ cross bx b_y cx cy * ay := mul_nonneg h2.le hay
        linarith
      nlinarith [hid, hnum, hby]
    · exfalso
      unfold cross at h2
      rw [hcy0] at h2
      nlinarith [mul_pos hby hcx]
  · exfalso
    unfold cross at h1
    rw [hby0] at h1
    nlinarith [mul_nonneg hay hbx.le]

/-- In the strict upper half-circle, `0 < cross a b` and `cross b c = 0`
give `0 < cross a c`. -/
lemma cross_trans_right_zero_upper {ax ay bx b_y cx cy : Int}
    (hua : strictUpper ax ay) (hub : strictUpper bx b_y) (huc : strictUpper cx cy)
    (h1 : 0 < cross ax ay bx b_y) (h2 : cross bx b_y cx cy = 0) :
    0 < cross ax ay cx cy := by
  have hay : 0 ≤ ay := strictUpper_ay_nonneg hua
  unfold strictUpper at hub huc
  rcases hub with hby | ⟨hby0, hbx⟩
  · rcases huc with hcy | ⟨hcy0, hcx⟩
    · have hid := cross_identity_y ax ay bx b_y cx cy
      rw [h2] at hid
      have t1 : 0 < cross ax ay bx b_y * cy := mul_pos h1 hcy
      nlinarith [hid, t1, hby]
    · exfalso
      unfold cross at h2
      rw [hcy0] at h2
      nlinarith [mul_pos hby hcx]
  · exfalso
    unfold cross at h1
    rw [hby0] at h1
    nlinarith [mul_nonneg hay hbx.le]

/-- In the strict upper half-circle, `cross a b = 0` and `0 < cross b c`
give `0 < cross a c`. -/
lemma cross_trans_left_zero_upper {ax ay bx b_y cx cy : Int}
    (hua : strictUpper ax ay) (hub : strictUpper bx b_y) (huc : strictUpper cx cy)
    (h1 : cross ax ay bx b_y = 0) (h2 : 0 < cross bx b_y cx cy) :
    0 < cross ax ay cx cy := by
  unfold strictUpper at hua hub huc
  rcases hub with hby | ⟨hby0, hbx⟩
  · rcases hua with hay | ⟨hay0, hax⟩
    · have hid := cross_identity_y ax ay bx b_y cx cy
      rw [h1] at hid
      have t1 : 0 < cross bx b_y cx cy * ay := mul_pos h2 hay
      nlinarith [hid, t1, hby]
    · exfalso
      unfold cross at h1
      rw [hay0] at h1
      nlinarith [mul_pos hax hby]
  · unfold cross at h1 h2 ⊢
    rw [hby0] at h1 h2
    have hay0 : ay = 0 := by
      rcases mul_eq_zero.mp (show ay * bx = 0 by linarith) with h | h
      · exact h
      · omega
    rcases hua with hay | ⟨hay', hax⟩
    · omega
    · have hcy : 0 < cy := by nlinarith [hbx]
      rw [hay0]
      nlinarith [mul_pos hax hcy]

/-- Collinearity through a nonzero middle point is transitive. -/
lemma cross_trans_zero {ax ay bx b_y cx cy : Int} (hb : ¬(bx = 0 ∧ b_y = 0))
    (h1 : cross ax ay bx b_y = 0) (h2 : cross bx b_y cx cy = 0) :
    cross ax ay cx cy = 0 := by
  have hx := cross_identity_x ax ay bx b_y cx cy
  have hy := cross_identity_y ax ay bx b_y cx cy
  rw [h1, h2] at hx hy
  have hx0 : cross ax ay cx cy * bx = 0 := by linarith
  have hy0 : cross ax ay cx cy * b_y = 0 := by linarith
  rcases Decidable.em (bx = 0) with hbx | hbx
  · have hb_y : b_y ≠ 0 := fun h0 => hb ⟨hbx, h0⟩
    rcases mul_eq_zero.mp hy0 with h | h
    · exact h
    · exact absurd h hb_y
  · rcases mul_eq_zero.mp hx0 with h | h
    · exact h
    · exact absurd h hbx

/-! Wrappers transporting the upper-half lemmas to a shared half-plane
described by equal `upper_half` booleans (the lower half is the image of
the strict upper half under point negation, and `cross` is invariant
under negating both arguments). -/

lemma cross_trans_pos_samehalf {a b c : Int × Int}
    (ha : ¬(a.1 = 0 ∧ a.2 = 0)) (hb : ¬(b.1 = 0 ∧ b.2 = 0)) (hc : ¬(c.1 = 0 ∧ c.2 = 0))
    (hab : upper_half a.1 a.2 = upper_half b.1 b.2)
    (hbc : upper_half b.1 b.2 = upper_half c.1 c.2)
    (h1 : 0 < cross a.1 a.2 b.1 b.2) (h2 : 0 < cross b.1 b.2 c.1 c.2) :
    0 < cross a.1 a.2 c.1 c.2 := by
  cases hu : upper_half b.1 b.2
  · have hua := (upper_half_false_of_ne ha).mp (by rw [hab, hu])
    have hub := (upper_half_false_of_ne hb).mp hu
    have huc := (upper_half_false_of_ne hc).mp (by rw [← hbc, hu])
    have h := cross_trans_pos_upper hua hub huc
      (by rw [cross_neg_neg]; exact h1) (by rw [cross_neg_neg]; exact h2)
    rw [cross_neg_neg] at h
    exact h
  · have hua := (upper_half_true_of_ne ha).mp (by rw [hab, hu])
    have hub := (upper_half_true_of_ne hb).mp hu
    have huc := (upper_half_true_of_ne hc).mp (by rw [← hbc, hu])
    exact cross_trans_pos_upper hua hub huc h1 h2

lemma cross_trans_right_zero_samehalf {a b c : Int × Int}
    (ha : ¬(a.1 = 0 ∧ a.2 = 0)) (hb : ¬(b.1 = 0 ∧ b.2 = 0)) (hc : ¬(c.1 = 0 ∧ c.2 = 0))
    (hab : upper_half a.1 a.2 = upper_half b.1 b.2)
    (hbc : upper_half b.1 b.2 = upper_half c.1 c.2)
    (h1 : 0 < cross a.1 a.2 b.1 b.2) (h2 : cross b.1 b.2 c.1 c.2 = 0) :
    0 < cross a.1 a.2 c.1 c.2 := by
  cases hu : upper_half b.1 b.2
  · have hua := (upper_half_false_of_ne ha).mp (by rw [hab, hu])
    have hub := (upper_half_false_of_ne hb).mp hu
    have huc := (upper_half_false_of_ne hc).mp (by rw [← hbc, hu])
    have h := cross_trans_right_zero_upper hua hub huc
      (by rw [cross_neg_neg]; exact h1) (by rw [cross_neg_neg]; exact h2)
    rw [cross_neg_neg] at h
    exact h
  · have hua := (upper_half_true_of_ne ha).mp (by rw [hab, hu])
    have hub := (upper_half_true_of_ne hb).mp hu
    have huc := (upper_half_true_of_ne hc).mp (by rw [← hbc, hu])
    exact cross_trans_right_zero_upper hua hub huc h1 h2

lemma cross_trans_left_zero_samehalf {a b c : Int × Int}
    (ha : ¬(a.1 = 0 ∧ a.2 = 0)) (hb : ¬(b.1 = 0 ∧ b.2 = 0)) (hc : ¬(c.1 = 0 ∧ c.2 = 0))
    (hab : upper_half a.1 a.2 = upper_half b.1 b.2)
    (hbc : upper_half b.1 b.2 = upper_half c.1 c.2)
    (h1 : cross a.1 a.2 b.1 b.2 = 0) (h2 : 0 < cross b.1 b.2 c.1 c.2) :
    0 < cross a.1 a.2 c.1 c.2 := by
  cases hu : upper_half b.1 b.2
  · have hua := (upper_half_false_of_ne ha).mp (by rw [hab, hu])
    have hub := (upper_half_false_of_ne hb).mp hu
    have huc := (upper_half_false_of_ne hc).mp (by rw [← hbc, hu])
    have h := cross_trans_left_zero_upper hua hub huc
      (by rw [cross_neg_neg]; exact h1) (by rw [cross_neg_neg]; exact h2)
    rw [cross_neg_neg] at h
    exact h
  · have hua := (upper_half_true_of_ne ha).mp (by rw [hab, hu])
    have hub := (upper_half_true_of_ne hb).mp hu
    have huc := (upper_half_true_of_ne hc).mp (by rw [← hbc, hu])
    exact cross_trans_left_zero_upper hua hub huc h1 h2

/-! ### Comparator-level helpers for the total-order proof -/

lemma cmp_eq_lt_of_halves (a b : Int × Int) (opt : ArgSortOptions)
    (ha : ¬(a.1 = 0 ∧ a.2 = 0)) (hb : ¬(b.1 = 0 ∧ b.2 = 0))
    (hau : upper_half a.1 a.2 = true) (hbl : upper_half b.1 b.2 = false) :
    cmp_by_argument_i64 a b opt = some Ordering.lt := by
  rw [cmp_nonorigin a b opt ha hb, hau, hbl]
  rfl

lemma cmp_eq_lt_of_cross_pos (a b : Int × Int) (opt : ArgSortOptions)
    (ha : ¬(a.1 = 0 ∧ a.2 = 0)) (hb : ¬(b.1 = 0 ∧ b.2 = 0))
    (hh : upper_half a.1 a.2 = upper_half b.1 b.2)
    (hcr : 0 < cross a.1 a.2 b.1 b.2) :
    cmp_by_argument_i64 a b opt = some Ordering.lt := by
  rw [cmp_nonorigin a b opt ha hb, hh]
  have hne : ¬((upper_half b.1 b.2 != upper_half b.1 b.2) = true) := by simp
  rw [if_neg hne, if_pos (by omega), if_pos hcr]

lemma cmp_eq_lt_of_tie (a b : Int × Int) (opt : ArgSortOptions)
    (ha : ¬(a.1 = 0 ∧ a.2 = 0)) (hb : ¬(b.1 = 0 ∧ b.2 = 0))
    (hh : upper_half a.1 a.2 = upper_half b.1 b.2)
    (hcr : cross a.1 a.2 b.1 b.2 = 0)
    (ht : tie_break_cmp a b opt.tie = Ordering.lt) :
    cmp_by_argument_i64 a b opt = some Ordering.lt := by
  rw [cmp_nonorigin a b opt ha hb, hh]
  have hne : ¬((upper_half b.1 b.2 != upper_half b.1 b.2) = true) := by simp
  rw [if_neg hne, if_neg (by omega), ht]

/-- Elimination: the three ways `cmp_by_argument_i64` can return `Less`
on non-origin points. -/
lemma cmp_lt_cases (a b : Int × Int) (opt : ArgSortOptions)
    (ha : ¬(a.1 = 0 ∧ a.2 = 0)) (hb : ¬(b.1 = 0 ∧ b.2 = 0))
    (h : cmp_by_argument_i64 a b opt = some Ordering.lt) :
    (upper_half a.1 a.2 = true ∧ upper_half b.1 b.2 = false) ∨
    (upper_half a.1 a.2 = upper_half b.1 b.2 ∧ 0 < cross a.1 a.2 b.1 b.2) ∨
    (upper_half a.1 a.2 = upper_half b.1 b.2 ∧ cross a.1 a.2 b.1 b.2 = 0 ∧
      tie_break_cmp a b opt.tie = Ordering.lt) := by
  rw [cmp_nonorigin a b opt ha hb] at h
  by_cases hh : upper_half a.1 a.2 = upper_half b.1 b.2
  · have hne : ¬((upper_half a.1 a.2 != upper_half b.1 b.2) = true) := by simp [hh]
    rw [if_neg hne] at h
    by_cases hcr : cross a.1 a.2 b.1 b.2 = 0
    · rw [if_neg (by omega)] at h
      exact Or.inr (Or.inr ⟨hh, hcr, Option.some_injective _ h⟩)
    · rw [if_pos hcr] at h
      by_cases hpos : 0 < cross a.1 a.2 b.1 b.2
      · exact Or.inr (Or.inl ⟨hh, hpos⟩)
      · exfalso
        rw [if_neg hpos] at h
        simp at h
  · have hbt : (upper_half a.1 a.2 != upper_half b.1 b.2) = true := by simp [hh]
    rw [if_pos hbt] at h
    left
    have h' := Option.some_injective _ h
    revert h' hh
    cases upper_half a.1 a.2 <;> cases upper_half b.1 b.2 <;> simp [cmpBool]

lemma tie_break_lt_trans {a b c : Int × Int} {t : TieBreak}
    (h1 : tie_break_cmp a b t = Ordering.lt)
    (h2 : tie_break_cmp b c t = Ordering.lt) :
    tie_break_cmp a c t = Ordering.lt := by
  cases t
  · simp only [tie_break_cmp] at h1 h2 ⊢
    rw [cmpInt_eq_lt] at h1 h2 ⊢
    linarith
  · simp only [tie_break_cmp] at h1 h2 ⊢
    rw [cmpPair_eq_lt] at h1 h2 ⊢
    omega

/-! ### The three total-order properties -/

lemma cmp_refl_aux (a : Int × Int) (opt : ArgSortOptions) (hA : allowed opt a) :
    cmp_by_argument_i64 a a opt = some Ordering.eq := by
  obtain ⟨po, t⟩ := opt
  by_cases ha0 : a.1 = 0 ∧ a.2 = 0
  · cases po
    · rw [cmp_origin_first a a t (Or.inl ha0)]
      simp [cmpBool]
    · rw [cmp_origin_last a a t (Or.inl ha0)]
      simp [cmpBool]
    · exact absurd (Prod.ext ha0.1 ha0.2) (hA rfl)
  · rw [cmp_nonorigin a a _ ha0 ha0]
    have hne : ¬((upper_half a.1 a.2 != upper_half a.1 a.2) = true) := by simp
    rw [if_neg hne, if_neg (by simp [cross_self])]
    cases t
    · simp [tie_break_cmp, cmpInt_self]
    · simp [tie_break_cmp, cmpPair_self]

lemma cmp_antisym_aux (a b : Int × Int) (opt : ArgSortOptions)
    (hA : allowed opt a) (hB : allowed opt b) :
    cmp_by_argument_i64 a b opt =
      (cmp_by_argument_i64 b a opt).map Ordering.swap := by
  obtain ⟨po, t⟩ := opt
  by_cases ha0 : a.1 = 0 ∧ a.2 = 0
  · cases po
    · rw [cmp_origin_first a b t (Or.inl ha0), cmp_origin_first b a t (Or.inr ha0),
        cmpBool_swap]
      rfl
    · rw [cmp_origin_last a b t (Or.inl ha0), cmp_origin_last b a t (Or.inr ha0),
        cmpBool_swap]
      rfl
    · exact absurd (Prod.ext ha0.1 ha0.2) (hA rfl)
  · by_cases hb0 : b.1 = 0 ∧ b.2 = 0
    · cases po
      · rw [cmp_origin_first a b t (Or.inr hb0), cmp_origin_first b a t (Or.inl hb0),
          cmpBool_swap]
        rfl
      · rw [cmp_origin_last a b t (Or.inr hb0), cmp_origin_last b a t (Or.inl hb0),
          cmpBool_swap]
        rfl
      · exact absurd (Prod.ext hb0.1 hb0.2) (hB rfl)
    · rw [cmp_nonorigin a b _ ha0 hb0, cmp_nonorigin b a _ hb0 ha0]
      have hcc : cross b.1 b.2 a.1 a.2 = -cross a.1 a.2 b.1 b.2 :=
        cross_anticomm a.1 a.2 b.1 b.2
      by_cases hh : upper_half a.1 a.2 = upper_half b.1 b.2
      · have hne1 : ¬((upper_half a.1 a.2 != upper_half b.1 b.2) = true) := by simp [hh]
        have hne2 : ¬((upper_half b.1 b.2 != upper_half a.1 a.2) = true) := by simp [hh]
        rw [if_neg hne1, if_neg hne2]
        by_cases hcr : cross a.1 a.2 b.1 b.2 = 0
        · rw [if_neg (by omega), if_neg (by rw [hcc]; omega)]
          cases t
          · simp only [tie_break_cmp]
            rw [cmpInt_swap]
            rfl
          · simp only [tie_break_cmp]
            rw [cmpPair_swap]
            rfl
        · rcases lt_trichotomy (cross a.1 a.2 b.1 b.2) 0 with hlt | heq | hgt
          · rw [if_pos (show cross a.1 a.2 b.1 b.2 ≠ 0 by omega),
              if_neg (show ¬(0 < cross a.1 a.2 b.1 b.2) by omega),
              if_pos (show cross b.1 b.2 a.1 a.2 ≠ 0 by rw [hcc]; omega),
              if_pos (show 0 < cross b.1 b.2 a.1 a.2 by rw [hcc]; omega)]
            rfl
          · exact absurd heq hcr
          · rw [if_pos (show cross a.1 a.2 b.1 b.2 ≠ 0 by omega),
              if_pos (show 0 < cross a.1 a.2 b.1 b.2 from hgt),
              if_pos (show cross b.1 b.2 a.1 a.2 ≠ 0 by rw [hcc]; omega),
              if_neg (show ¬(0 < cross b.1 b.2 a.1 a.2) by rw [hcc]; omega)]
            rfl
      · have hbt1 : (upper_half a.1 a.2 != upper_half b.1 b.2) = true := by simp [hh]
        have hbt2 : (upper_half b.1 b.2 != upper_half a.1 a.2) = true := by
          simp only [bne_iff_ne, ne_eq]
          exact fun hq => hh hq.symm
        rw [if_pos hbt1, if_pos hbt2, cmpBool_swap]
        rfl

lemma cmp_trans_aux (a b c : Int × Int) (opt : ArgSortOptions)
    (hA : allowed opt a) (hB : allowed opt b) (hC : allowed opt c)
    (h1 : cmp_by_argument_i64 a b opt = some Ordering.lt)
    (h2 : cmp_by_argument_i64 b c opt = some Ordering.lt) :
    cmp_by_argument_i64 a c opt = some Ordering.lt := by
  obtain ⟨po, t⟩ := opt
  by_cases hb0 : b.1 = 0 ∧ b.2 = 0
  · cases po
    · exfalso
      rw [cmp_origin_first a b t (Or.inr hb0), decide_eq_true hb0] at h1
      have h' := Option.some_injective _ h1
      revert h'
      cases decide (a.1 = 0 ∧ a.2 = 0) <;> simp [cmpBool]
    · exfalso
      rw [cmp_origin_last b c t (Or.inl hb0), decide_eq_true hb0] at h2
      have h' := Option.some_injective _ h2
      revert h'
      cases decide (c.1 = 0 ∧ c.2 = 0) <;> simp [cmpBool]
    · exact absurd (Prod.ext hb0.1 hb0.2) (hB rfl)
  · by_cases ha0 : a.1 = 0 ∧ a.2 = 0
    · cases po
      · by_cases hc0 : c.1 = 0 ∧ c.2 = 0
        · exfalso
          rw [cmp_origin_first b c t (Or.inr hc0), decide_eq_true hc0,
            decide_eq_false hb0] at h2
          have h' := Option.some_injective _ h2
          simp [cmpBool] at h'
        · rw [cmp_origin_first a c t (Or.inl ha0), decide_eq_true ha0,
            decide_eq_false hc0]
          rfl
      · exfalso
        rw [cmp_origin_last a b t (Or.inl ha0), decide_eq_true ha0,
          decide_eq_false hb0] at h1
        have h' := Option.some_injective _ h1
        simp [cmpBool] at h'
      · exact absurd (Prod.ext ha0.1 ha0.2) (hA rfl)
    · by_cases hc0 : c.1 = 0 ∧ c.2 = 0
      · cases po
        · exfalso
          rw [cmp_origin_first b c t (Or.inr hc0), decide_eq_true hc0,
            decide_eq_false hb0] at h2
          have h' := Option.some_injective _ h2
          simp [cmpBool] at h'
        · rw [cmp_origin_last a c t (Or.inr hc0), decide_eq_true hc0,
            decide_eq_false ha0]
          rfl
        · exact absurd (Prod.ext hc0.1 hc0.2) (hC rfl)
      · -- all three points are non-origin: the geometric case
        have hab := cmp_lt_cases a b _ ha0 hb0 h1
        have hbc := cmp_lt_cases b c _ hb0 hc0 h2
        rcases hab with ⟨hau, hbl⟩ | ⟨habh, habc⟩ | ⟨habh, habc0, habt⟩
        · rcases hbc with ⟨hbu, hcl⟩ | ⟨hbch, _⟩ | ⟨hbch, _, _⟩
          · rw [hbl] at hbu
            exact absurd hbu (by simp)
          · exact cmp_eq_lt_of_halves a c _ ha0 hc0 hau (by rw [← hbch]; exact hbl)
          · exact cmp_eq_lt_of_halves a c _ ha0 hc0 hau (by rw [← hbch]; exact hbl)
        · rcases hbc with ⟨hbu, hcl⟩ | ⟨hbch, hbcc⟩ | ⟨hbch, hbcc0, hbct⟩
          · exact cmp_eq_lt_of_halves a c _ ha0 hc0 (by rw [habh]; exact hbu) hcl
          · exact cmp_eq_lt_of_cross_pos a c _ ha0 hc0 (habh.trans hbch)
              (cross_trans_pos_samehalf ha0 hb0 hc0 habh hbch habc hbcc)
          · exact cmp_eq_lt_of_cross_pos a c _ ha0 hc0 (habh.trans hbch)
              (cross_trans_right_zero_samehalf ha0 hb0 hc0 habh hbch habc hbcc0)
        · rcases hbc with ⟨hbu, hcl⟩ | ⟨hbch, hbcc⟩ | ⟨hbch, hbcc0, hbct⟩
          · exact cmp_eq_lt_of_halves a c _ ha0 hc0 (by rw [habh]; exact hbu) hcl
          · exact cmp_eq_lt_of_cross_pos a c _ ha0 hc0 (habh.trans hbch)
              (cross_trans_left_zero_samehalf ha0 hb0 hc0 habh hbch habc0 hbcc)
          · exact cmp_eq_lt_of_tie a c _ ha0 hc0 (habh.trans hbch)
              (cross_trans_zero hb0 habc0 hbcc0) (tie_break_lt_trans habt hbct)

/-- Claim C1: for options with origin policy `First` or `Last` on all
`i64` points, and for `Forbid` on all non-origin `i64` points,
`cmp_by_argument_i64` is a total order: it is reflexive-equal
(`cmp a a = Equal`), antisymmetric (`cmp a b` is the reverse of
`cmp b a`), and transitive on `Less`.  The `Norm2Asc` tie-break
compares `norm2`, the wrapped `i128` value the program computes; the
order properties hold because that value is a fixed key of each point. -/
theorem c1_cmp_total_order (opt : ArgSortOptions) (a b c : Int × Int)
    (hia : isI64Pair a) (hib : isI64Pair b) (hic : isI64Pair c)
    (hA : allowed opt a) (hB : allowed opt b) (hC : allowed opt c) :
    cmp_by_argument_i64 a a opt = some Ordering.eq ∧
    cmp_by_argument_i64 a b opt =
      (cmp_by_argument_i64 b a opt).map Ordering.swap ∧
    (cmp_by_argument_i64 a b opt = some Ordering.lt →
      cmp_by_argument_i64 b c opt = some Ordering.lt →
      cmp_by_argument_i64 a c opt = some Ordering.lt) :=
  ⟨cmp_refl_aux a opt hA, cmp_antisym_aux a b opt hA hB,
   cmp_trans_aux a b c opt hA hB hC⟩

/-- Closed instance of C1 at concrete points under the `Forbid` policy. -/
theorem c1_cmp_total_order_witness :
    isI64Pair ((1, 0) : Int × Int) ∧ isI64Pair ((0, 1) : Int × Int) ∧
    isI64Pair ((-1, 0) : Int × Int) ∧
    allowed { origin := OriginPolicy.Forbid, tie := TieBreak.Norm2Asc } (1, 0) ∧
    allowed { origin := OriginPolicy.Forbid, tie := TieBreak.Norm2Asc } (0, 1) ∧
    allowed { origin := OriginPolicy.Forbid, tie := TieBreak.Norm2Asc } (-1, 0) ∧
    (cmp_by_argument_i64 (1, 0) (1, 0)
        { origin := OriginPolicy.Forbid, tie := TieBreak.Norm2Asc } =
      some Ordering.eq ∧
    cmp_by_argument_i64 (1, 0) (0, 1)
        { origin := OriginPolicy.Forbid, tie := TieBreak.Norm2Asc } =
      (cmp_by_argument_i64 (0, 1) (1, 0)
        { origin := OriginPolicy.Forbid, tie := TieBreak.Norm2Asc }).map Ordering.swap ∧
    (cmp_by_argument_i64 (1, 0) (0, 1)
        { origin := OriginPolicy.Forbid, tie := TieBreak.Norm2Asc } = some Ordering.lt →
      cmp_by_argument_i64 (0, 1) (-1, 0)
        { origin := OriginPolicy.Forbid, tie := TieBreak.Norm2Asc } = some Ordering.lt →
      cmp_by_argument_i64 (1, 0) (-1, 0)
        { origin := OriginPolicy.Forbid, tie := TieBreak.Norm2Asc } = some Ordering.lt)) :=
  ⟨by decide, by decide, by decide, by decide, by decide, by decide,
   c1_cmp_total_order { origin := OriginPolicy.Forbid, tie := TieBreak.Norm2Asc }
     (1, 0) (0, 1) (-1, 0) (by decide) (by decide) (by decide)
     (by decide) (by decide) (by decide)⟩

end ArgSort
